import Mathlib

/-!
A shallow embedding of `lib/SymbolGraphGen/SymbolGraphASTWalker.cpp`:
module identity, the availability filter, symbol-graph resolution, the
declaration-tree walker and the interface-conformance expansion worklist,
together with theorems settling the specification's claims about them.

Conventions used throughout:
* C++ pointers that may be null become `Option`.
* `llvm::SmallVector` used as a stack (`push_back` / `pop_back_val`) becomes a
  Lean `List` whose head is the back of the vector: consing an element models
  `push_back`, matching on the head models `pop_back_val`.
* Declarations are identified by their (unique, in our scenarios) name string;
  modules by name plus the non-Swift flag, mirroring `areModulesEqual`.
* The `while` loop of the conformance expansion becomes a fuel-indexed
  function; exhausted fuel is `Option.none`, `abort()` is `Except.error`.
-/

namespace SymbolGraphGen

/-- A module handle: its name and whether it is a non-Swift (foreign/Clang)
module, the two facts `areModulesEqual` consults. -/
structure Module where
  name : String
  isNonSwiftModule : Bool
deriving DecidableEq, Repr

/-- Embeds `areModulesEqual` (SymbolGraphASTWalker.cpp, anonymous namespace):
names must match; unless `ignoreUnderlying` is set, the non-Swift flags must
match as well. -/
def areModulesEqual (lhs rhs : Module) (ignoreUnderlying : Bool) : Bool :=
  lhs.name == rhs.name
    && (ignoreUnderlying || lhs.isNonSwiftModule == rhs.isNonSwiftModule)

/-- The platform of an availability attribute; only `none` versus a concrete
platform matters to the walker. -/
inductive PlatformKind where
  | none
  | macOS
  | iOS
  | linux
deriving DecidableEq, Repr

/-- `swift::AvailableVersionComparison`. -/
inductive AvailableVersionComparison where
  | Available
  | PotentiallyUnavailable
  | Unavailable
  | Obsoleted
deriving DecidableEq, Repr

/-- The part of an `AvailableAttr` that `isUnavailableOrObsoleted` reads:
the platform it names and `getVersionAvailability`. -/
structure AvailableAttr where
  Platform : PlatformKind
  versionAvailability : AvailableVersionComparison
deriving DecidableEq, Repr

/-- `swift::DeclKind`, restricted to the kinds the walker's switch
distinguishes; every other kind is `Other`. -/
inductive DeclKind where
  | Class
  | Struct
  | Enum
  | EnumElement
  | Protocol
  | Constructor
  | Func
  | Var
  | Subscript
  | TypeAlias
  | AssociatedType
  | Extension
  | Other
deriving DecidableEq, Repr

/-- Whether a kind is a `NominalTypeDecl` (class, struct, enum, protocol) for
the purpose of the context-chain climb's `dyn_cast<NominalTypeDecl>`. -/
def DeclKind.isNominal : DeclKind → Bool
  | .Class => true
  | .Struct => true
  | .Enum => true
  | .Protocol => true
  | _ => false

/-- Whether a kind is a `ValueDecl` for `dyn_cast_or_null<ValueDecl>` in
`isConsideredExportedImported`. Extensions and the catch-all `Other` contexts
are not value declarations; every recordable non-extension kind is. -/
def DeclKind.isValueDecl : DeclKind → Bool
  | .Extension => false
  | .Other => false
  | _ => true

/-- The recordable kinds of `walkToDeclPre`'s switch: the cases that `break`
into the recording logic rather than returning `true` immediately. -/
def DeclKind.isRecordable : DeclKind → Bool
  | .Class => true
  | .Struct => true
  | .Enum => true
  | .EnumElement => true
  | .Protocol => true
  | .Constructor => true
  | .Func => true
  | .Var => true
  | .Subscript => true
  | .TypeAlias => true
  | .AssociatedType => true
  | .Extension => true
  | .Other => false

/-- A type expression as the conformance expansion classifies it: a reference
resolving to a protocol declaration (named), a protocol composition with its
member types, or any other shape (which makes `HandleProtocolOrComposition`
abort). -/
inductive Ty where
  | protoRef (name : String)
  | comp (members : List Ty)
  | other

/-- A declaration tree node. `declContext` is the parent `DeclContext` when it
is itself a declaration; `Option.none` stands for the enclosing module (whose
`getParentModule` is `moduleContext`'s chain value already recorded here).
`extendedNominal` is meaningful for extensions, `inherited` models
`getInherited()` (entries whose `getType()` is null are `Option.none`), and
`children` is the subtree the walk may descend into. -/
inductive Decl where
  | mk : (name : String) → (kind : DeclKind) → (moduleContext : Module) →
      (declContext : Option Decl) → (unavailAttr : Option AvailableAttr) →
      (extendedNominal : Option Decl) → (inherited : List (Option Ty)) →
      (children : List Decl) → Decl

/-- `Decl` field access. -/
def Decl.name : Decl → String
  | .mk n _ _ _ _ _ _ _ => n

/-- `Decl` field access. -/
def Decl.kind : Decl → DeclKind
  | .mk _ k _ _ _ _ _ _ => k

/-- `D->getModuleContext()`. -/
def Decl.moduleContext : Decl → Module
  | .mk _ _ m _ _ _ _ _ => m

/-- `D->getDeclContext()`, as a declaration when the context is one. -/
def Decl.declContext : Decl → Option Decl
  | .mk _ _ _ c _ _ _ _ => c

/-- `D->getAttrs().getUnavailable(ctx)`: the attribute that makes the
declaration unavailable, when there is one. -/
def Decl.unavailAttr : Decl → Option AvailableAttr
  | .mk _ _ _ _ a _ _ _ => a

/-- `Ext->getExtendedNominal()` (null for non-extensions). -/
def Decl.extendedNominal : Decl → Option Decl
  | .mk _ _ _ _ _ e _ _ => e

/-- `D->getInherited()`, each entry's `getType()` already taken (null types
are `Option.none`). -/
def Decl.inherited : Decl → List (Option Ty)
  | .mk _ _ _ _ _ _ i _ => i

/-- The declarations nested inside this one, visited when the walker
descends. -/
def Decl.children : Decl → List Decl
  | .mk _ _ _ _ _ _ _ c => c

/-- Embeds `isUnavailableOrObsoleted` (SymbolGraphASTWalker.cpp): true only
when an unavailable attribute exists, names a concrete platform (not
`PlatformKind::none`), and its version availability is `Unavailable` or
`Obsoleted`. -/
def isUnavailableOrObsoleted (D : Decl) : Bool :=
  match D.unavailAttr with
  | some Avail =>
    if Avail.Platform ≠ PlatformKind.none then
      match Avail.versionAvailability with
      | .Unavailable => true
      | .Obsoleted => true
      | _ => false
    else
      false
  | none => false

/-- Which symbol graph a declaration resolves to: the main graph, or the
lazily created extension graph keyed by an owning module's name. -/
inductive GraphID where
  | main
  | extensionGraph (moduleName : String)
deriving DecidableEq, Repr

/-- A symbol: the graph it was built against, the declaration (by name) and
the optional synthesizing base — the `Symbol(SG, D, nullptr)` triple. -/
structure Symbol where
  graph : GraphID
  decl : String
  synthesizedBase : Option String
deriving DecidableEq, Repr

/-- The two relationship kinds the walker records. -/
inductive RelationshipKind where
  | ExtensionTo
  | ConformsTo
deriving DecidableEq, Repr

/-- An edge: the (source, target, kind) triple that identifies it. -/
structure Edge where
  source : Symbol
  target : Symbol
  kind : RelationshipKind
deriving DecidableEq, Repr

/-- A symbol graph's contents: its node set and edge set, kept as insertion
ordered duplicate-free lists. -/
structure SymbolGraph where
  nodes : List Symbol
  edges : List Edge
deriving DecidableEq, Repr

/-- Modelled from the spec: `SymbolGraph::recordNode` is not under `src/`;
the spec's data model says a graph "holds a node set (symbols, deduplicated
by identity)", so inserting a node twice keeps one copy. -/
def SymbolGraph.recordNode (g : SymbolGraph) (s : Symbol) : SymbolGraph :=
  if s ∈ g.nodes then g else { g with nodes := g.nodes ++ [s] }

/-- Modelled from the spec: `SymbolGraph::recordEdge` is not under `src/`;
the spec requires "inserting an already-present (source, target, kind) triple
is a no-op". The source's optional conformance-extension argument feeds
serialization details outside the edge's identity and is omitted here. -/
def SymbolGraph.recordEdge (g : SymbolGraph) (source target : Symbol)
    (kind : RelationshipKind) : SymbolGraph :=
  if (⟨source, target, kind⟩ : Edge) ∈ g.edges then g
  else { g with edges := g.edges ++ [⟨source, target, kind⟩] }

/-- A freshly allocated, still empty symbol graph. -/
def SymbolGraph.empty : SymbolGraph := ⟨[], []⟩

/-- The walker's configuration: the module under inspection `M`, the
re-export configuration, the extension-block-symbols option, the main
graph's recorded declaring module (the cross-import-overlay case), plus the
boundary collaborators the spec specifies only by contract: each protocol's
stated inherited types (`ProtocolDecl::getInherited`, keyed by protocol
name), the extensions the per-graph policy holds implicitly private, and
the declarations `canIncludeDeclAsNode` rejects. -/
structure SymbolGraphASTWalker where
  M : Module
  ExportedImportedModules : List Module
  QualifiedExportedImports : List (Module × List String)
  EmitExtensionBlockSymbols : Bool
  DeclaringModule : Option Module
  protocolInherited : List (String × List (Option Ty))
  ImplicitlyPrivateDecls : List String
  NotIncludableDecls : List String

/-- `Proto->getInherited()` for a protocol known to the walker's tree. -/
def SymbolGraphASTWalker.protoInherited (W : SymbolGraphASTWalker)
    (P : String) : List (Option Ty) :=
  match W.protocolInherited.lookup P with
  | some tys => tys
  | none => []

/-- Embeds `SymbolGraphASTWalker::isExportedImportedModule`: strict
`areModulesEqual` (foreignness not ignored) against each configured module;
`MD->getModuleContext()` of a module declaration is that module itself. -/
def SymbolGraphASTWalker.isExportedImportedModule (W : SymbolGraphASTWalker)
    (M : Module) : Bool :=
  W.ExportedImportedModules.any fun MD => areModulesEqual M MD false

/-- Embeds `SymbolGraphASTWalker::isQualifiedExportedImport`: whether any
configured module's individually re-exported declaration set contains `D`. -/
def SymbolGraphASTWalker.isQualifiedExportedImport (W : SymbolGraphASTWalker)
    (D : Decl) : Bool :=
  W.QualifiedExportedImports.any fun QI => QI.2.contains D.name

/-- Embeds `SymbolGraphASTWalker::isFromExportedImportedModule`. -/
def SymbolGraphASTWalker.isFromExportedImportedModule
    (W : SymbolGraphASTWalker) (D : Decl) : Bool :=
  W.isQualifiedExportedImport D || W.isExportedImportedModule D.moduleContext

/-- Helper lemma target: the parent context is smaller than the declaration
holding it, for the termination of the context-chain climbs. -/
theorem Decl.sizeOf_declContext_lt (d : Decl) : sizeOf d.declContext < sizeOf d := by
  cases d
  simp [Decl.declContext]
  omega

/-- The extended nominal stored in a declaration is smaller than the
declaration, for the termination of the context-chain climbs. -/
theorem Decl.sizeOf_extendedNominal_lt (d N : Decl)
    (h : d.extendedNominal = some N) : sizeOf N < sizeOf d := by
  cases d
  simp [Decl.extendedNominal] at h
  subst h
  simp
  omega

/-- The `while (DC && !ExtendedNominal)` climb of
`isConsideredExportedImported`: find the innermost enclosing extension and
return its extended nominal. (The source would loop forever on an extension
context whose extended nominal is null; that cannot arise for type-checked
input, and the model stops there.) -/
def findEnclosingExtensionTarget : Option Decl → Option Decl
  | none => none
  | some DC =>
    if DC.kind = DeclKind.Extension then DC.extendedNominal
    else findEnclosingExtensionTarget DC.declContext
termination_by oc => sizeOf oc
decreasing_by
  have := Decl.sizeOf_declContext_lt DC
  have hs : sizeOf (some DC) = 1 + sizeOf DC := by simp
  omega

/-- Embeds `SymbolGraphASTWalker::isConsideredExportedImported`: the
declaration itself, then its immediate value-declaration context, then the
target of the innermost enclosing extension. -/
def SymbolGraphASTWalker.isConsideredExportedImported
    (W : SymbolGraphASTWalker) (D : Decl) : Bool :=
  if W.isFromExportedImportedModule D then true
  else
    let DC := D.declContext
    let childOfReexported :=
      match DC with
      | some P => if P.kind.isValueDecl then W.isFromExportedImportedModule P else false
      | none => false
    if childOfReexported then true
    else
      match findEnclosingExtensionTarget DC with
      | some EN => W.isFromExportedImportedModule EN
      | none => false

/-- The context-chain climb opening `getModuleSymbolGraph`: starting from
`D->getModuleContext()` and `D->getDeclContext()`, repeatedly take the
context's parent module, step through nominal types' own contexts and
through extensions to their extended nominal's context (remembering the
first extended nominal seen), and stop at any other context. `Option.none`
as a context stands for the enclosing module itself. -/
def climbContexts (M : Module) (oc : Option Decl) (extNom : Option Decl) :
    Module × Option Decl :=
  match oc with
  | none => (M, extNom)
  | some DC =>
    let M := DC.moduleContext
    if DC.kind.isNominal then
      climbContexts M DC.declContext extNom
    else if h : DC.kind = DeclKind.Extension then
      match h2 : DC.extendedNominal with
      | some N =>
        climbContexts M N.declContext (if extNom.isNone then some N else extNom)
      | none => (M, extNom)
    else
      (M, extNom)
termination_by sizeOf oc
decreasing_by
  · have := Decl.sizeOf_declContext_lt DC
    have hs : sizeOf (some DC) = 1 + sizeOf DC := by simp
    omega
  · have h3 := Decl.sizeOf_declContext_lt N
    have h4 := Decl.sizeOf_extendedNominal_lt DC N h2
    have hs : sizeOf (some DC) = 1 + sizeOf DC := by simp
    omega

/-- Embeds the decision of `SymbolGraphASTWalker::getModuleSymbolGraph`:
after the context climb, the four graph-routing checks in source order, with
the extension graph for the owning module's name as the fallback. (The
source function also lazily allocates that graph; state creation is modelled
separately by `WalkerState.ensureGraph`.) -/
def SymbolGraphASTWalker.getModuleSymbolGraph (W : SymbolGraphASTWalker)
    (D : Decl) : GraphID :=
  let ME := climbContexts D.moduleContext D.declContext none
  let M := ME.1
  let ExtendedNominal := ME.2
  if areModulesEqual W.M M true then GraphID.main
  else if (match W.DeclaringModule with
           | some DM => areModulesEqual DM M true
           | none => false) then GraphID.main
  else if W.isExportedImportedModule M || W.isQualifiedExportedImport D then
    GraphID.main
  else if (match ExtendedNominal with
           | some EN => W.isFromExportedImportedModule EN
           | none => W.isConsideredExportedImported D) then GraphID.main
  else GraphID.extensionGraph M.name

/-- The mutable graph registry: the main graph plus the name-keyed extension
graphs, in creation order. -/
structure WalkerState where
  mainGraph : SymbolGraph
  extendedModuleGraphs : List (String × SymbolGraph)
  synthesizedRequests : List Symbol
deriving DecidableEq, Repr

/-- The walk's initial state: an empty main graph, no extension graphs. -/
def initialState : WalkerState := ⟨SymbolGraph.empty, [], []⟩

/-- `getModuleSymbolGraph`'s side effect: looking up a missing extension
graph allocates an empty one and inserts it keyed by module name. -/
def WalkerState.ensureGraph (st : WalkerState) : GraphID → WalkerState
  | .main => st
  | .extensionGraph n =>
    if (st.extendedModuleGraphs.lookup n).isSome then st
    else { st with extendedModuleGraphs := st.extendedModuleGraphs ++ [(n, SymbolGraph.empty)] }

/-- Read a graph out of the registry (empty if never allocated). -/
def WalkerState.graphFor (st : WalkerState) : GraphID → SymbolGraph
  | .main => st.mainGraph
  | .extensionGraph n =>
    match st.extendedModuleGraphs.lookup n with
    | some g => g
    | none => SymbolGraph.empty

/-- Apply a mutation to one graph of the registry. -/
def WalkerState.updateGraph (st : WalkerState) (g : GraphID)
    (f : SymbolGraph → SymbolGraph) : WalkerState :=
  match g with
  | .main => { st with mainGraph := f st.mainGraph }
  | .extensionGraph n =>
    { st with extendedModuleGraphs :=
        st.extendedModuleGraphs.map fun p => if p.1 = n then (p.1, f p.2) else p }

/-- Embeds the `HandleProtocolOrComposition` closure: a type that resolves to
a protocol declaration is pushed onto `UnexpandedProtocols`, a protocol
composition onto `UnexpandedCompositions`, and anything else calls
`abort()`. The `Ty` constructors encode the source's classification
(`getAnyNominal()` being a `ProtocolDecl`, respectively
`getAs<ProtocolCompositionType>()`); a list's head models the vectors'
back. -/
def HandleProtocolOrComposition (ty : Ty) (UnexpandedProtocols : List String)
    (UnexpandedCompositions : List (List Ty)) :
    Except Unit (List String × List (List Ty)) :=
  match ty with
  | .protoRef P => .ok (P :: UnexpandedProtocols, UnexpandedCompositions)
  | .comp ms => .ok (UnexpandedProtocols, ms :: UnexpandedCompositions)
  | .other => .error ()

/-- The `for (Member : Comp->getMembers())` loop: classify each member in
order, aborting as soon as one member does. -/
def handleTypes : List Ty → List String → List (List Ty) →
    Except Unit (List String × List (List Ty))
  | [], ups, ucs => .ok (ups, ucs)
  | t :: ts, ups, ucs =>
    match HandleProtocolOrComposition t ups ucs with
    | .error e => .error e
    | .ok (ups2, ucs2) => handleTypes ts ups2 ucs2

/-- The loops over an inherited-entry list (both the seeding loop over the
extension's `getInherited()` and the expansion loop over a popped protocol's
`getInherited()`): an entry whose `getType()` is null is `continue`d past,
every other entry is classified. -/
def handleInherited : List (Option Ty) → List String → List (List Ty) →
    Except Unit (List String × List (List Ty))
  | [], ups, ucs => .ok (ups, ucs)
  | none :: rest, ups, ucs => handleInherited rest ups ucs
  | some t :: rest, ups, ucs =>
    match HandleProtocolOrComposition t ups ucs with
    | .error e => .error e
    | .ok (ups2, ucs2) => handleInherited rest ups2 ucs2

/-- The `while (!UnexpandedCompositions.empty() || !UnexpandedProtocols.empty())`
worklist, fuel-indexed: `none` means the fuel ran out (the source would
still be iterating), `some (.error ())` that a classification aborted, and
`some (.ok Protocols)` the finished expansion. Compositions are expanded
with priority; a popped protocol has its own inherited list classified and
is then appended to the result. `env` reads a protocol's stated inherited
types (`Proto->getInherited()`). -/
def expandLoop (env : String → List (Option Ty)) :
    Nat → List String → List (List Ty) → List String →
    Option (Except Unit (List String))
  | _, [], [], Protocols => some (.ok Protocols)
  | 0, _, _, _ => none
  | fuel + 1, ups, Comp :: ucs, Protocols =>
    match handleTypes Comp ups ucs with
    | .error e => some (.error e)
    | .ok (ups2, ucs2) => expandLoop env fuel ups2 ucs2 Protocols
  | fuel + 1, Proto :: ups, [], Protocols =>
    match handleInherited (env Proto) ups [] with
    | .error e => some (.error e)
    | .ok (ups2, ucs2) => expandLoop env fuel ups2 ucs2 (Protocols ++ [Proto])

/-- The whole conformance expansion on an extension's stated inherited
types: seed both unexpanded lists from the entries (skipping null types),
then run the worklist. -/
def expandConformances (env : String → List (Option Ty)) (fuel : Nat)
    (inherited : List (Option Ty)) : Option (Except Unit (List String)) :=
  match handleInherited inherited [] [] with
  | .error e => some (.error e)
  | .ok (ups, ucs) => expandLoop env fuel ups ucs []

/-- How a modelled walk can fail: the expansion's `abort()`, or the model's
fuel running out (where the source would not have terminated yet). -/
inductive WalkErr where
  | aborted
  | outOfFuel
deriving DecidableEq, Repr

/-- Embeds the `shouldBeRecordedAsExtension` decision of `walkToDeclPre`:
extension-block symbols are enabled and the extension's module name differs
from the extended nominal's module name (`getNameStr()` comparison: names
only, foreignness not consulted). -/
def shouldBeRecordedAsExtension (W : SymbolGraphASTWalker)
    (Extension ExtendedNominal : Decl) : Bool :=
  W.EmitExtensionBlockSymbols &&
  !(Extension.moduleContext.name == ExtendedNominal.moduleContext.name)

/-- Embeds `SymbolGraphASTWalker::walkToDeclPre` as explicit state passing:
the returned `Bool` is the recurse/skip decision (`true` = descend). The
per-graph collaborators `isImplicitlyPrivate` and `canIncludeDeclAsNode`
(not under `src/`) are modelled from the spec as the configured name lists
`ImplicitlyPrivateDecls` and `NotIncludableDecls`;
`recordConformanceSynthesizedMemberRelationships` (also external) is
modelled as appending the request to `synthesizedRequests`. -/
def SymbolGraphASTWalker.walkToDeclPre (W : SymbolGraphASTWalker) (fuel : Nat)
    (D : Decl) (st : WalkerState) : Except WalkErr (Bool × WalkerState) :=
  if isUnavailableOrObsoleted D then .ok (false, st)
  else if ¬D.kind.isRecordable then .ok (true, st)
  else
    let SGid := W.getModuleSymbolGraph D
    let st := st.ensureGraph SGid
    if D.kind = DeclKind.Extension then
      match D.extendedNominal with
      | none => .ok (true, st)
      | some ExtendedNominal =>
        let ESGid := W.getModuleSymbolGraph ExtendedNominal
        let st := st.ensureGraph ESGid
        if W.ImplicitlyPrivateDecls.contains D.name then .ok (false, st)
        else if isUnavailableOrObsoleted ExtendedNominal then .ok (false, st)
        else
          let recordAsExt := shouldBeRecordedAsExtension W D ExtendedNominal
          let Source : Symbol :=
            if recordAsExt then ⟨ESGid, D.name, none⟩
            else ⟨ESGid, ExtendedNominal.name, none⟩
          let st :=
            if recordAsExt then
              let st := st.updateGraph ESGid fun g => g.recordNode Source
              st.updateGraph ESGid fun g =>
                g.recordEdge Source ⟨ESGid, ExtendedNominal.name, none⟩
                  RelationshipKind.ExtensionTo
            else st
          if ¬D.inherited.isEmpty then
            match expandConformances W.protoInherited fuel D.inherited with
            | none => .error .outOfFuel
            | some (.error _) => .error .aborted
            | some (.ok Protocols) =>
              let st := Protocols.foldl (fun st P =>
                st.updateGraph ESGid fun g =>
                  g.recordEdge Source ⟨GraphID.main, P, none⟩
                    RelationshipKind.ConformsTo) st
              let st :=
                if ExtendedNominal.moduleContext ≠ W.M then
                  { st with synthesizedRequests := st.synthesizedRequests ++ [Source] }
                else st
              .ok (true, st)
          else .ok (true, st)
    else
      if W.NotIncludableDecls.contains D.name then .ok (false, st)
      else
        let recordHere : WalkerState → Except WalkErr (Bool × WalkerState) :=
          fun st => .ok (true, st.updateGraph SGid fun g =>
            g.recordNode ⟨SGid, D.name, none⟩)
        match D.declContext with
        | some P =>
          if P.kind = DeclKind.Extension then
            match P.extendedNominal with
            | some EN =>
              let ExtendedModule := EN.moduleContext
              let ESGid := W.getModuleSymbolGraph EN
              let st := st.ensureGraph ESGid
              if ExtendedModule ≠ W.M then
                .ok (true, st.updateGraph ESGid fun g =>
                  g.recordNode ⟨ESGid, D.name, none⟩)
              else recordHere st
            | none => recordHere st
          else recordHere st
        | none => recordHere st

/-- The subtree under a declaration is smaller than the declaration, for the
termination of the pre-order walk. -/
theorem Decl.sizeOf_children_lt (d : Decl) : sizeOf d.children < sizeOf d := by
  cases d
  simp [Decl.children]

mutual

/-- The pre-order walk driver: visit a declaration, and descend into its
children exactly when `walkToDeclPre` answers `true`. -/
def walkDecl (W : SymbolGraphASTWalker) (fuel : Nat) (D : Decl)
    (st : WalkerState) : Except WalkErr WalkerState :=
  match W.walkToDeclPre fuel D st with
  | .error e => .error e
  | .ok (false, st2) => .ok st2
  | .ok (true, st2) => walkDecls W fuel D.children st2
termination_by sizeOf D
decreasing_by
  exact Decl.sizeOf_children_lt D

/-- Walk a sibling list left to right, threading the registry state. -/
def walkDecls (W : SymbolGraphASTWalker) (fuel : Nat) (Ds : List Decl)
    (st : WalkerState) : Except WalkErr WalkerState :=
  match Ds with
  | [] => .ok st
  | D :: rest =>
    match walkDecl W fuel D st with
    | .error e => .error e
    | .ok st2 => walkDecls W fuel rest st2
termination_by sizeOf Ds
decreasing_by
  all_goals simp
  all_goals omega

end

/-! Concrete scenarios used by witnesses and scenario claims. -/

/-- A walker over module `Main` with no re-export configuration, no
extension-block symbols and an everything-is-visible policy. -/
def plainWalker : SymbolGraphASTWalker :=
  ⟨⟨"Main", false⟩, [], [], false, none, [], [], []⟩

/-- A variable declaration unavailable on a concrete platform, with a nested
child declaration. -/
def unavailVarDecl : Decl :=
  .mk "D" DeclKind.Var ⟨"Main", false⟩ none
    (some ⟨PlatformKind.macOS, AvailableVersionComparison.Unavailable⟩) none []
    [.mk "N" DeclKind.Var ⟨"Main", false⟩ none none none [] []]

/-- A variable declaration whose unavailability attribute names no platform:
unconditionally unavailable, yet invisible to the walker's filter. -/
def uncondUnavailDecl : Decl :=
  .mk "U" DeclKind.Var ⟨"Main", false⟩ none
    (some ⟨PlatformKind.none, AvailableVersionComparison.Unavailable⟩) none [] []

/-- A type `T` owned by module `Foreign`. -/
def foreignT : Decl := .mk "T" DeclKind.Struct ⟨"Foreign", false⟩ none none none [] []

/-- A `Local` extension of `Foreign`'s type `T`, stating no conformances. -/
def localExtOfForeignT : Decl :=
  .mk "E" DeclKind.Extension ⟨"Local", false⟩ none none (some foreignT) [] []

/-- A walker over module `Local` with extension-block symbols enabled. -/
def localWalkerEBS : SymbolGraphASTWalker :=
  ⟨⟨"Local", false⟩, [], [], true, none, [], [], []⟩

/-- C6: `areModulesEqual a b ignoreForeignness` is true exactly when the two
names are equal and either `ignoreForeignness` is set or the foreign-vs-native
flags also match; with `ignoreForeignness = true` equal names alone suffice. -/
theorem areModulesEqual_iff (a b : Module) (ignoreForeignness : Bool) :
    areModulesEqual a b ignoreForeignness = true ↔
      (a.name = b.name ∧
        (ignoreForeignness = true ∨ a.isNonSwiftModule = b.isNonSwiftModule)) := by
  simp [areModulesEqual]

/-- C4: a declaration that is unavailable or obsoleted for the target
platform makes `walkToDeclPre` return skip with the registry untouched, so
it contributes no node and no edge to any graph and the pre-order walk does
not visit its subtree. -/
theorem unavailable_decl_skipped (W : SymbolGraphASTWalker) (fuel : Nat)
    (D : Decl) (st : WalkerState) (h : isUnavailableOrObsoleted D = true) :
    W.walkToDeclPre fuel D st = Except.ok (false, st) ∧
    walkDecl W fuel D st = Except.ok st := by
  have h1 : W.walkToDeclPre fuel D st = Except.ok (false, st) := by
    unfold SymbolGraphASTWalker.walkToDeclPre
    simp [h]
  refine ⟨h1, ?_⟩
  rw [walkDecl, h1]

/-- Witness for C4: the concretely unavailable `unavailVarDecl` is skipped
whole, its nested child never visited. -/
theorem unavailable_decl_skipped_witness :
    isUnavailableOrObsoleted unavailVarDecl = true ∧
    plainWalker.walkToDeclPre 5 unavailVarDecl initialState =
      Except.ok (false, initialState) ∧
    walkDecl plainWalker 5 unavailVarDecl initialState = Except.ok initialState := by
  have h : isUnavailableOrObsoleted unavailVarDecl = true := rfl
  have := unavailable_decl_skipped plainWalker 5 unavailVarDecl initialState h
  exact ⟨h, this.1, this.2⟩

/-- C9: an unavailability attribute whose platform is `PlatformKind::none`
is invisible to the availability filter — the declaration counts as
available, and a recordable top-level declaration carrying it is recorded
as a node with descent into its subtree. -/
theorem platform_none_treated_available (W : SymbolGraphASTWalker)
    (fuel : Nat) (st : WalkerState) (D : Decl) (A : AvailableAttr)
    (h1 : D.unavailAttr = some A) (h2 : A.Platform = PlatformKind.none)
    (h3 : D.kind = DeclKind.Var) (h4 : D.declContext = none)
    (h5 : W.NotIncludableDecls.contains D.name = false) :
    isUnavailableOrObsoleted D = false ∧
    W.walkToDeclPre fuel D st =
      Except.ok (true,
        (st.ensureGraph (W.getModuleSymbolGraph D)).updateGraph
          (W.getModuleSymbolGraph D)
          (fun g => g.recordNode ⟨W.getModuleSymbolGraph D, D.name, none⟩)) := by
  have hu : isUnavailableOrObsoleted D = false := by
    simp [isUnavailableOrObsoleted, h1, h2]
  refine ⟨hu, ?_⟩
  have h5' : D.name ∉ W.NotIncludableDecls := by simpa using h5
  unfold SymbolGraphASTWalker.walkToDeclPre
  simp [hu, h3, h4, h5', DeclKind.isRecordable]

/-- Witness for C9: an unconditionally unavailable declaration (platform
`none`) passes the filter and is recorded in the main graph. -/
theorem platform_none_treated_available_witness :
    isUnavailableOrObsoleted uncondUnavailDecl = false ∧
    plainWalker.walkToDeclPre 5 uncondUnavailDecl initialState =
      Except.ok (true,
        (initialState.ensureGraph (plainWalker.getModuleSymbolGraph uncondUnavailDecl)).updateGraph
          (plainWalker.getModuleSymbolGraph uncondUnavailDecl)
          (fun g => g.recordNode
            ⟨plainWalker.getModuleSymbolGraph uncondUnavailDecl,
             uncondUnavailDecl.name, none⟩)) :=
  platform_none_treated_available plainWalker 5 initialState uncondUnavailDecl
    ⟨PlatformKind.none, AvailableVersionComparison.Unavailable⟩ rfl rfl rfl rfl rfl

/-- C5: a declaration whose owning module (after the context climb) matches
a configured exported-imported module by strict identity — equal name and
equal foreign-ness flag — resolves to the main graph, not to an extension
graph keyed by that module. -/
theorem exported_imported_module_main_graph (W : SymbolGraphASTWalker)
    (D : Decl)
    (h : ∃ V ∈ W.ExportedImportedModules,
        (climbContexts D.moduleContext D.declContext none).1.name = V.name ∧
        (climbContexts D.moduleContext D.declContext none).1.isNonSwiftModule =
          V.isNonSwiftModule) :
    W.getModuleSymbolGraph D = GraphID.main := by
  obtain ⟨V, hV, hn, hf⟩ := h
  have hmem : W.isExportedImportedModule
      (climbContexts D.moduleContext D.declContext none).1 = true := by
    simp only [SymbolGraphASTWalker.isExportedImportedModule, List.any_eq_true]
    exact ⟨V, hV, by simp [areModulesEqual, hn, hf]⟩
  simp only [SymbolGraphASTWalker.getModuleSymbolGraph, hmem, Bool.true_or,
    if_true]
  split_ifs <;> rfl

/-- Witness for C5: a declaration of the `Vendored` module, with `Vendored`
in the exported-imported set, lands in the main graph. -/
theorem exported_imported_module_main_graph_witness :
    SymbolGraphASTWalker.getModuleSymbolGraph
      ⟨⟨"Main", false⟩, [⟨"Vendored", false⟩], [], false, none, [], [], []⟩
      (.mk "V" DeclKind.Func ⟨"Vendored", false⟩ none none none [] []) =
      GraphID.main :=
  exported_imported_module_main_graph
    ⟨⟨"Main", false⟩, [⟨"Vendored", false⟩], [], false, none, [], [], []⟩
    (.mk "V" DeclKind.Func ⟨"Vendored", false⟩ none none none [] [])
    ⟨⟨"Vendored", false⟩, by simp, by
      constructor <;>
        simp [climbContexts, Decl.moduleContext, Decl.declContext]⟩

/-- C3: `recordAsExtensionNode` holds exactly when extension-block symbols
are enabled and the extension's declaring module name differs from the
extended type's; in the `Local`-extends-`Foreign` scenario with the option
on, the walk leaves the `Foreign`-keyed graph with exactly one node (the
extension's symbol) and exactly one extension-to edge from it to `T`'s
symbol. -/
theorem extension_block_recording (W : SymbolGraphASTWalker) (E T : Decl) :
    (shouldBeRecordedAsExtension W E T = true ↔
      (W.EmitExtensionBlockSymbols = true ∧
        E.moduleContext.name ≠ T.moduleContext.name)) ∧
    walkDecl localWalkerEBS 5 localExtOfForeignT initialState =
      Except.ok
        { mainGraph := SymbolGraph.empty,
          extendedModuleGraphs := [("Foreign",
            { nodes := [⟨GraphID.extensionGraph "Foreign", "E", none⟩],
              edges := [⟨⟨GraphID.extensionGraph "Foreign", "E", none⟩,
                        ⟨GraphID.extensionGraph "Foreign", "T", none⟩,
                        RelationshipKind.ExtensionTo⟩] })],
          synthesizedRequests := [] } := by
  constructor
  · simp [shouldBeRecordedAsExtension]
  · simp [walkDecl, walkDecls, SymbolGraphASTWalker.walkToDeclPre,
      localWalkerEBS, localExtOfForeignT, foreignT,
      SymbolGraphASTWalker.getModuleSymbolGraph, climbContexts, areModulesEqual,
      isUnavailableOrObsoleted, shouldBeRecordedAsExtension,
      SymbolGraphASTWalker.isExportedImportedModule,
      SymbolGraphASTWalker.isQualifiedExportedImport,
      SymbolGraphASTWalker.isFromExportedImportedModule,
      SymbolGraphASTWalker.isConsideredExportedImported,
      findEnclosingExtensionTarget, initialState, SymbolGraph.empty,
      WalkerState.ensureGraph, WalkerState.updateGraph, SymbolGraph.recordNode,
      SymbolGraph.recordEdge, Decl.moduleContext, Decl.declContext, Decl.kind,
      Decl.name, Decl.extendedNominal, Decl.inherited, Decl.children,
      Decl.unavailAttr, DeclKind.isRecordable, DeclKind.isNominal]

/-- The owning module and extended-nominal hint `getModuleSymbolGraph`
computes by its context climb. -/
def owningInfo (D : Decl) : Module × Option Decl :=
  climbContexts D.moduleContext D.declContext none

/-- The first routing check of `getModuleSymbolGraph`: the owning module is
the module under inspection, foreignness ignored. -/
def localModuleCheck (W : SymbolGraphASTWalker) (M : Module) : Bool :=
  areModulesEqual W.M M true

/-- The second routing check: the owning module is the main graph's recorded
declaring module (cross-import overlay), foreignness ignored. -/
def declaringModuleCheck (W : SymbolGraphASTWalker) (M : Module) : Bool :=
  match W.DeclaringModule with
  | some DM => areModulesEqual DM M true
  | none => false

/-- The third routing check: the owning module is exported-imported, or the
declaration itself is a qualified export. -/
def moduleReexportCheck (W : SymbolGraphASTWalker) (D : Decl) (M : Module) :
    Bool :=
  W.isExportedImportedModule M || W.isQualifiedExportedImport D

/-- The fourth routing check: the extended-nominal hint (when present) is
from an exported-imported module; with no hint, the declaration itself is
considered exported-imported. -/
def extendedNominalReexportCheck (W : SymbolGraphASTWalker) (D : Decl)
    (extNom : Option Decl) : Bool :=
  match extNom with
  | some EN => W.isFromExportedImportedModule EN
  | none => W.isConsideredExportedImported D

/-- `getModuleSymbolGraph` characterized through the four named routing
checks: main graph when any passes, the owning module's extension graph when
all fail. -/
theorem getModuleSymbolGraph_eq (W : SymbolGraphASTWalker) (D : Decl) :
    W.getModuleSymbolGraph D =
      if (localModuleCheck W (owningInfo D).1 ||
          declaringModuleCheck W (owningInfo D).1 ||
          moduleReexportCheck W D (owningInfo D).1 ||
          extendedNominalReexportCheck W D (owningInfo D).2) = true
      then GraphID.main
      else GraphID.extensionGraph (owningInfo D).1.name := by
  simp only [SymbolGraphASTWalker.getModuleSymbolGraph, owningInfo,
    localModuleCheck, declaringModuleCheck, moduleReexportCheck,
    extendedNominalReexportCheck]
  split_ifs <;> simp_all

/-- C1: the routing checks apply in a fixed priority: either local check
passing returns the main graph outright; with both local checks failed the
result is the main graph exactly when a re-export check passes; and the
extension graph is returned exactly when every check fails. -/
theorem graph_resolution_priority (W : SymbolGraphASTWalker) (D : Decl) :
    (localModuleCheck W (owningInfo D).1 = true →
      W.getModuleSymbolGraph D = GraphID.main) ∧
    (declaringModuleCheck W (owningInfo D).1 = true →
      W.getModuleSymbolGraph D = GraphID.main) ∧
    (localModuleCheck W (owningInfo D).1 = false →
      declaringModuleCheck W (owningInfo D).1 = false →
      (W.getModuleSymbolGraph D = GraphID.main ↔
        (moduleReexportCheck W D (owningInfo D).1 = true ∨
         extendedNominalReexportCheck W D (owningInfo D).2 = true))) ∧
    (W.getModuleSymbolGraph D = GraphID.extensionGraph (owningInfo D).1.name ↔
      (localModuleCheck W (owningInfo D).1 = false ∧
       declaringModuleCheck W (owningInfo D).1 = false ∧
       moduleReexportCheck W D (owningInfo D).1 = false ∧
       extendedNominalReexportCheck W D (owningInfo D).2 = false)) := by
  rw [getModuleSymbolGraph_eq]
  rcases h1 : localModuleCheck W (owningInfo D).1 <;>
    rcases h2 : declaringModuleCheck W (owningInfo D).1 <;>
      rcases h3 : moduleReexportCheck W D (owningInfo D).1 <;>
        rcases h4 : extendedNominalReexportCheck W D (owningInfo D).2 <;>
          simp

/-- A type `T` owned by the walker's own module `Main`. -/
def mainT : Decl := .mk "T" DeclKind.Struct ⟨"Main", false⟩ none none none [] []

/-- A `Main` extension of the local type `T` stating one inherited type. -/
def extStating (ty : Ty) : Decl :=
  .mk "E" DeclKind.Extension ⟨"Main", false⟩ none none (some mainT) [some ty] []

/-- A walker over `Main` whose protocol `B` states one inherited type,
`C`. -/
def compWalker (B C : String) : SymbolGraphASTWalker :=
  ⟨⟨"Main", false⟩, [], [], false, none, [(B, [some (Ty.protoRef C)])], [], []⟩

/-- C8: a classified type expression that resolves neither to a protocol
declaration nor to a composition aborts the expansion loudly — the
classifier errors, the error propagates through the seeding loop and the
whole expansion, and the walk of an extension stating such a type ends in
the abort, never in a silent skip or continued traversal. -/
theorem non_protocol_type_aborts (ty : Ty)
    (h1 : ∀ P, ty ≠ Ty.protoRef P) (h2 : ∀ ms, ty ≠ Ty.comp ms) :
    (∀ ups ucs, HandleProtocolOrComposition ty ups ucs = Except.error ()) ∧
    (∀ rest ups ucs,
      handleInherited (some ty :: rest) ups ucs = Except.error ()) ∧
    (∀ env fuel rest,
      expandConformances env fuel (some ty :: rest) = some (Except.error ())) ∧
    (∀ fuel,
      plainWalker.walkToDeclPre fuel (extStating ty) initialState =
        Except.error WalkErr.aborted) := by
  have hty : ty = Ty.other := by
    cases ty with
    | protoRef P => exact absurd rfl (h1 P)
    | comp ms => exact absurd rfl (h2 ms)
    | other => rfl
  subst hty
  refine ⟨fun ups ucs => rfl, fun rest ups ucs => rfl,
    fun env fuel rest => rfl, fun fuel => ?_⟩
  simp [SymbolGraphASTWalker.walkToDeclPre, plainWalker, extStating, mainT,
    SymbolGraphASTWalker.getModuleSymbolGraph, climbContexts, areModulesEqual,
    isUnavailableOrObsoleted, shouldBeRecordedAsExtension,
    expandConformances, handleInherited, HandleProtocolOrComposition,
    WalkerState.ensureGraph, initialState, Decl.moduleContext,
    Decl.declContext, Decl.kind, Decl.name, Decl.extendedNominal,
    Decl.inherited, Decl.unavailAttr, DeclKind.isRecordable]

/-- Witness for C8 at the concrete non-protocol, non-composition shape. -/
theorem non_protocol_type_aborts_witness :
    (∀ ups ucs,
      HandleProtocolOrComposition Ty.other ups ucs = Except.error ()) ∧
    (∀ rest ups ucs,
      handleInherited (some Ty.other :: rest) ups ucs = Except.error ()) ∧
    (∀ env fuel rest,
      expandConformances env fuel (some Ty.other :: rest) =
        some (Except.error ())) ∧
    (∀ fuel,
      plainWalker.walkToDeclPre fuel (extStating Ty.other) initialState =
        Except.error WalkErr.aborted) :=
  non_protocol_type_aborts Ty.other (fun P h => by cases h)
    (fun ms h => by cases h)

/-- C10: a stated inherited-type entry whose type failed to resolve (a null
type) is passed over silently by the classification loop — it contributes
nothing to either pending list and does not abort — both when seeding from
an extension's stated inherited types and when a popped protocol's own
inherited list is expanded. -/
theorem null_inherited_type_skipped :
    (∀ rest ups ucs,
      handleInherited (none :: rest) ups ucs = handleInherited rest ups ucs) ∧
    (∀ env fuel rest,
      expandConformances env fuel ((none : Option Ty) :: rest) =
        expandConformances env fuel rest) ∧
    (∀ (env : String → List (Option Ty)) fuel Proto ups acc rest,
      env Proto = none :: rest →
      expandLoop env (fuel + 1) (Proto :: ups) [] acc =
        (match handleInherited rest ups [] with
         | .error e => some (.error e)
         | .ok (ups2, ucs2) => expandLoop env fuel ups2 ucs2 (acc ++ [Proto]))) := by
  refine ⟨fun rest ups ucs => rfl, fun env fuel rest => rfl,
    fun env fuel Proto ups acc rest h => ?_⟩
  simp only [expandLoop, h]
  rfl

/-- C2: an extension stating conformance to the composition `A & B`, where
`B` inherits from `C` and none of `A`, `B`, `C` inherit further, expands to
exactly the set `{A, B, C}` (three distinct protocols), and the walk
records exactly three conforms-to edges from the chosen source symbol, each
to a main-graph symbol for one of `A`, `B`, `C`. -/
theorem composition_conformance_expansion (A B C : String)
    (hAB : A ≠ B) (hAC : A ≠ C) (hBC : B ≠ C) :
    expandConformances (compWalker B C).protoInherited 5
        [some (Ty.comp [Ty.protoRef A, Ty.protoRef B])] =
      some (Except.ok [B, C, A]) ∧
    ([B, C, A] : List String).toFinset = {A, B, C} ∧
    ([B, C, A] : List String).Nodup ∧
    (compWalker B C).walkToDeclPre 5
        (extStating (Ty.comp [Ty.protoRef A, Ty.protoRef B])) initialState =
      Except.ok (true,
        { mainGraph :=
            { nodes := [],
              edges := [⟨⟨GraphID.main, "T", none⟩, ⟨GraphID.main, B, none⟩,
                          RelationshipKind.ConformsTo⟩,
                        ⟨⟨GraphID.main, "T", none⟩, ⟨GraphID.main, C, none⟩,
                          RelationshipKind.ConformsTo⟩,
                        ⟨⟨GraphID.main, "T", none⟩, ⟨GraphID.main, A, none⟩,
                          RelationshipKind.ConformsTo⟩] },
          extendedModuleGraphs := [],
          synthesizedRequests := [] }) := by
  have eAB : (A == B) = false := by simp [hAB]
  have eCB : (C == B) = false := by simp [hBC.symm]
  have eBB : (B == B) = true := by simp
  have hexp : expandConformances (compWalker B C).protoInherited 5
      [some (Ty.comp [Ty.protoRef A, Ty.protoRef B])] =
      some (Except.ok [B, C, A]) := by
    simp [expandConformances, expandLoop, handleInherited, handleTypes,
      HandleProtocolOrComposition, SymbolGraphASTWalker.protoInherited,
      compWalker, List.lookup, eAB, eCB, eBB]
  refine ⟨hexp, ?_, ?_, ?_⟩
  · ext x
    simp
    tauto
  · simp only [List.nodup_cons, List.mem_cons, List.mem_singleton,
      List.not_mem_nil, or_false, not_or, List.nodup_nil, and_true,
      List.nodup_singleton]
    exact ⟨⟨hBC, Ne.symm hAB⟩, Ne.symm hAC, not_false⟩
  · have hexp' := hexp
    simp only [compWalker] at hexp'
    simp [SymbolGraphASTWalker.walkToDeclPre, compWalker, extStating, mainT,
      SymbolGraphASTWalker.getModuleSymbolGraph, climbContexts,
      areModulesEqual, isUnavailableOrObsoleted, shouldBeRecordedAsExtension,
      hexp', WalkerState.ensureGraph, WalkerState.updateGraph, initialState,
      SymbolGraph.empty, SymbolGraph.recordEdge, SymbolGraph.recordNode,
      Decl.moduleContext, Decl.declContext, Decl.kind, Decl.name,
      Decl.extendedNominal, Decl.inherited, Decl.unavailAttr,
      DeclKind.isRecordable, hAB, hAC, hBC, Ne.symm hAB, Ne.symm hAC,
      Ne.symm hBC]

/-- Witness for C2 at the concrete protocols `"A"`, `"B"`, `"C"`. -/
theorem composition_conformance_expansion_witness :
    expandConformances (compWalker "B" "C").protoInherited 5
        [some (Ty.comp [Ty.protoRef "A", Ty.protoRef "B"])] =
      some (Except.ok ["B", "C", "A"]) ∧
    (["B", "C", "A"] : List String).toFinset = {"A", "B", "C"} ∧
    (["B", "C", "A"] : List String).Nodup ∧
    (compWalker "B" "C").walkToDeclPre 5
        (extStating (Ty.comp [Ty.protoRef "A", Ty.protoRef "B"])) initialState =
      Except.ok (true,
        { mainGraph :=
            { nodes := [],
              edges := [⟨⟨GraphID.main, "T", none⟩, ⟨GraphID.main, "B", none⟩,
                          RelationshipKind.ConformsTo⟩,
                        ⟨⟨GraphID.main, "T", none⟩, ⟨GraphID.main, "C", none⟩,
                          RelationshipKind.ConformsTo⟩,
                        ⟨⟨GraphID.main, "T", none⟩, ⟨GraphID.main, "A", none⟩,
                          RelationshipKind.ConformsTo⟩] },
          extendedModuleGraphs := [],
          synthesizedRequests := [] }) :=
  composition_conformance_expansion "A" "B" "C" (by decide) (by decide)
    (by decide)

/-! Termination of the conformance-expansion worklist on acyclic
inheritance graphs: a weight on pending items that each loop iteration
decreases by exactly one. -/

mutual

/-- Weight of a type expression, given a weight `w` for each protocol. -/
def tyWeight (w : String → Nat) : Ty → Nat
  | .protoRef P => w P
  | .comp ms => 1 + tysWeight w ms
  | .other => 1

/-- Summed weight of a list of type expressions. -/
def tysWeight (w : String → Nat) : List Ty → Nat
  | [] => 0
  | t :: ts => tyWeight w t + tysWeight w ts

end

mutual

/-- The protocol names a type expression mentions, through compositions. -/
def tyProtos : Ty → List String
  | .protoRef P => [P]
  | .comp ms => tysProtos ms
  | .other => []

/-- The protocol names a list of type expressions mentions. -/
def tysProtos : List Ty → List String
  | [] => []
  | t :: ts => tyProtos t ++ tysProtos ts

end

mutual

/-- A type expression the classifier accepts everywhere: a protocol
reference or a composition of such, never the aborting third shape. -/
def tyWellFormed : Ty → Bool
  | .protoRef _ => true
  | .comp ms => tysWellFormed ms
  | .other => false

/-- All of a list of type expressions are well formed. -/
def tysWellFormed : List Ty → Bool
  | [] => true
  | t :: ts => tyWellFormed t && tysWellFormed ts

end

/-- Acyclicity of the interface-inheritance/composition graph, witnessed by
a rank that strictly drops from any protocol to every protocol its stated
inherited types mention. -/
def RankedEnv (env : String → List (Option Ty)) (r : String → Nat) : Prop :=
  ∀ P Q, Q ∈ tysProtos ((env P).filterMap id) → r Q < r P

/-- Every protocol's stated inherited types are well formed. -/
def WfEnv (env : String → List (Option Ty)) : Prop :=
  ∀ P, tysWellFormed ((env P).filterMap id) = true

/-- Protocol weights approximated to a fuel depth; stabilizes at any fuel
beyond the protocol's rank. -/
def protoWeightFuel (env : String → List (Option Ty)) : Nat → String → Nat
  | 0, _ => 1
  | k + 1, P => 1 + tysWeight (protoWeightFuel env k) ((env P).filterMap id)

/-- The stabilized protocol weight under a rank function. -/
def protoWeight (env : String → List (Option Ty)) (r : String → Nat)
    (P : String) : Nat :=
  protoWeightFuel env (r P + 1) P

/-- Total weight of the two pending worklists: each pending protocol at its
protocol weight, each pending composition as the composition type it came
from. -/
def pendingMeasure (w : String → Nat) (ups : List String)
    (ucs : List (List Ty)) : Nat :=
  (ups.map w).sum + (ucs.map fun ms => 1 + tysWeight w ms).sum

mutual

/-- A type's weight depends only on the weights of the protocols it
mentions. -/
theorem tyWeight_congr (w w' : String → Nat) (t : Ty)
    (h : ∀ Q ∈ tyProtos t, w Q = w' Q) : tyWeight w t = tyWeight w' t :=
  match t with
  | .protoRef P => by
      simpa [tyWeight] using h P (by simp [tyProtos])
  | .comp ms => by
      simp only [tyWeight]
      rw [tysWeight_congr w w' ms (by simpa [tyProtos] using h)]
  | .other => rfl

/-- A type list's weight depends only on the weights of mentioned
protocols. -/
theorem tysWeight_congr (w w' : String → Nat) (ts : List Ty)
    (h : ∀ Q ∈ tysProtos ts, w Q = w' Q) : tysWeight w ts = tysWeight w' ts :=
  match ts with
  | [] => rfl
  | t :: ts => by
      simp only [tysWeight]
      rw [tyWeight_congr w w' t (fun Q hQ => h Q (by simp [tysProtos, hQ])),
        tysWeight_congr w w' ts (fun Q hQ => h Q (by simp [tysProtos, hQ]))]

end

/-- Beyond a protocol's rank, one more step of fuel no longer changes its
weight. -/
theorem protoWeightFuel_stable (env : String → List (Option Ty))
    (r : String → Nat) (hr : RankedEnv env r) :
    ∀ k P, r P < k → protoWeightFuel env k P = protoWeightFuel env (k + 1) P := by
  intro k
  induction k with
  | zero => exact fun P h => absurd h (Nat.not_lt_zero _)
  | succ k ih =>
    intro P h
    show 1 + tysWeight (protoWeightFuel env k) ((env P).filterMap id) =
      1 + tysWeight (protoWeightFuel env (k + 1)) ((env P).filterMap id)
    rw [tysWeight_congr (protoWeightFuel env k) (protoWeightFuel env (k + 1))
      ((env P).filterMap id)
      (fun Q hQ => ih Q (lt_of_lt_of_le (hr P Q hQ) (Nat.lt_succ_iff.mp h)))]

/-- Fuel beyond the rank leaves the weight at its stable value. -/
theorem protoWeightFuel_ge (env : String → List (Option Ty))
    (r : String → Nat) (hr : RankedEnv env r) (k k' : Nat) (hk : k ≤ k')
    (P : String) (h : r P < k) :
    protoWeightFuel env k P = protoWeightFuel env k' P := by
  induction k', hk using Nat.le_induction with
  | base => rfl
  | succ k' hk ih =>
    rw [ih, protoWeightFuel_stable env r hr k' P (lt_of_lt_of_le h hk)]

/-- The stable weight unfolds through one level of stated inheritance. -/
theorem protoWeight_eq (env : String → List (Option Ty)) (r : String → Nat)
    (hr : RankedEnv env r) (P : String) :
    protoWeight env r P =
      1 + tysWeight (protoWeight env r) ((env P).filterMap id) := by
  have h1 : protoWeight env r P =
      1 + tysWeight (protoWeightFuel env (r P)) ((env P).filterMap id) := rfl
  rw [h1, tysWeight_congr (protoWeightFuel env (r P)) (protoWeight env r)
    ((env P).filterMap id) ?_]
  intro Q hQ
  have hQP : r Q < r P := hr P Q hQ
  exact (protoWeightFuel_ge env r hr (r Q + 1) (r P) hQP Q (Nat.lt_succ_self _)).symm

/-- Protocol weights are positive at every fuel. -/
theorem protoWeightFuel_pos (env : String → List (Option Ty)) (k : Nat)
    (P : String) : 1 ≤ protoWeightFuel env k P := by
  cases k <;> simp [protoWeightFuel]

/-- Stable protocol weights are positive. -/
theorem protoWeight_pos (env : String → List (Option Ty)) (r : String → Nat)
    (P : String) : 1 ≤ protoWeight env r P :=
  protoWeightFuel_pos env (r P + 1) P

/-- Pushing a pending protocol adds its weight. -/
theorem pendingMeasure_cons_proto (w : String → Nat) (P : String)
    (ups : List String) (ucs : List (List Ty)) :
    pendingMeasure w (P :: ups) ucs = w P + pendingMeasure w ups ucs := by
  simp [pendingMeasure]
  omega

/-- Pushing a pending composition adds its weight. -/
theorem pendingMeasure_cons_comp (w : String → Nat) (ups : List String)
    (ms : List Ty) (ucs : List (List Ty)) :
    pendingMeasure w ups (ms :: ucs) =
      (1 + tysWeight w ms) + pendingMeasure w ups ucs := by
  simp [pendingMeasure]
  omega

/-- One successful classification grows the pending measure by exactly the
classified type's weight. -/
theorem HandleProtocolOrComposition_measure (w : String → Nat) (ty : Ty)
    (ups : List String) (ucs : List (List Ty)) (ups2 : List String)
    (ucs2 : List (List Ty))
    (h : HandleProtocolOrComposition ty ups ucs = .ok (ups2, ucs2)) :
    pendingMeasure w ups2 ucs2 = pendingMeasure w ups ucs + tyWeight w ty := by
  cases ty with
  | protoRef P =>
    simp only [HandleProtocolOrComposition, Except.ok.injEq, Prod.mk.injEq] at h
    obtain ⟨h1, h2⟩ := h
    subst h1; subst h2
    rw [pendingMeasure_cons_proto]
    simp [tyWeight]
    omega
  | comp ms =>
    simp only [HandleProtocolOrComposition, Except.ok.injEq, Prod.mk.injEq] at h
    obtain ⟨h1, h2⟩ := h
    subst h1; subst h2
    rw [pendingMeasure_cons_comp]
    simp [tyWeight]
    omega
  | other => simp [HandleProtocolOrComposition] at h

/-- The composition-member loop grows the measure by the members' summed
weight. -/
theorem handleTypes_measure (w : String → Nat) :
    ∀ (ts : List Ty) (ups : List String) (ucs : List (List Ty))
      (ups2 : List String) (ucs2 : List (List Ty)),
      handleTypes ts ups ucs = .ok (ups2, ucs2) →
      pendingMeasure w ups2 ucs2 = pendingMeasure w ups ucs + tysWeight w ts := by
  intro ts
  induction ts with
  | nil =>
    intro ups ucs ups2 ucs2 h
    simp only [handleTypes, Except.ok.injEq, Prod.mk.injEq] at h
    obtain ⟨h1, h2⟩ := h
    subst h1; subst h2
    simp [tysWeight]
  | cons t ts ih =>
    intro ups ucs ups2 ucs2 h
    simp only [handleTypes] at h
    rcases he : HandleProtocolOrComposition t ups ucs with e | ⟨u1, c1⟩ <;>
      rw [he] at h
    · cases h
    · have h1 := ih u1 c1 ups2 ucs2 h
      have h2 := HandleProtocolOrComposition_measure w t ups ucs u1 c1 he
      simp [tysWeight]
      omega

/-- The inherited-entry loop grows the measure by the summed weight of the
non-null entries. -/
theorem handleInherited_measure (w : String → Nat) :
    ∀ (ents : List (Option Ty)) (ups : List String) (ucs : List (List Ty))
      (ups2 : List String) (ucs2 : List (List Ty)),
      handleInherited ents ups ucs = .ok (ups2, ucs2) →
      pendingMeasure w ups2 ucs2 =
        pendingMeasure w ups ucs + tysWeight w (ents.filterMap id) := by
  intro ents
  induction ents with
  | nil =>
    intro ups ucs ups2 ucs2 h
    simp only [handleInherited, Except.ok.injEq, Prod.mk.injEq] at h
    obtain ⟨h1, h2⟩ := h
    subst h1; subst h2
    simp [tysWeight]
  | cons e rest ih =>
    intro ups ucs ups2 ucs2 h
    cases e with
    | none =>
      have h1 := ih ups ucs ups2 ucs2 h
      simpa using h1
    | some t =>
      simp only [handleInherited] at h
      rcases he : HandleProtocolOrComposition t ups ucs with e | ⟨u1, c1⟩ <;>
        rw [he] at h
      · cases h
      · have h1 := ih u1 c1 ups2 ucs2 h
        have h2 := HandleProtocolOrComposition_measure w t ups ucs u1 c1 he
        simp only [List.filterMap_cons, id_eq, tysWeight]
        omega

/-- On well-formed members the composition loop cannot abort, and keeps all
pending compositions well formed. -/
theorem handleTypes_wf :
    ∀ (ts : List Ty) (ups : List String) (ucs : List (List Ty)),
      tysWellFormed ts = true →
      (∀ ms ∈ ucs, tysWellFormed ms = true) →
      ∃ ups2 ucs2, handleTypes ts ups ucs = .ok (ups2, ucs2) ∧
        ∀ ms ∈ ucs2, tysWellFormed ms = true := by
  intro ts
  induction ts with
  | nil => exact fun ups ucs _ hucs => ⟨ups, ucs, rfl, hucs⟩
  | cons t ts ih =>
    intro ups ucs hwf hucs
    simp only [tysWellFormed, Bool.and_eq_true] at hwf
    obtain ⟨hwt, hwts⟩ := hwf
    cases t with
    | protoRef P =>
      obtain ⟨u2, c2, heq, hc⟩ := ih (P :: ups) ucs hwts hucs
      exact ⟨u2, c2, by simp [handleTypes, HandleProtocolOrComposition, heq], hc⟩
    | comp ms =>
      have hucs' : ∀ m ∈ ms :: ucs, tysWellFormed m = true := by
        intro m hm
        rcases List.mem_cons.mp hm with h | h
        · subst h
          simpa [tyWellFormed] using hwt
        · exact hucs m h
      obtain ⟨u2, c2, heq, hc⟩ := ih ups (ms :: ucs) hwts hucs'
      exact ⟨u2, c2, by simp [handleTypes, HandleProtocolOrComposition, heq], hc⟩
    | other => simp [tyWellFormed] at hwt

/-- On well-formed non-null entry types the inherited-entry loop cannot
abort, and keeps all pending compositions well formed. -/
theorem handleInherited_wf :
    ∀ (ents : List (Option Ty)) (ups : List String) (ucs : List (List Ty)),
      tysWellFormed (ents.filterMap id) = true →
      (∀ ms ∈ ucs, tysWellFormed ms = true) →
      ∃ ups2 ucs2, handleInherited ents ups ucs = .ok (ups2, ucs2) ∧
        ∀ ms ∈ ucs2, tysWellFormed ms = true := by
  intro ents
  induction ents with
  | nil => exact fun ups ucs _ hucs => ⟨ups, ucs, rfl, hucs⟩
  | cons e rest ih =>
    intro ups ucs hwf hucs
    cases e with
    | none => exact ih ups ucs (by simpa using hwf) hucs
    | some t =>
      simp only [List.filterMap_cons, id_eq, tysWellFormed,
        Bool.and_eq_true] at hwf
      obtain ⟨hwt, hwts⟩ := hwf
      cases t with
      | protoRef P =>
        obtain ⟨u2, c2, heq, hc⟩ := ih (P :: ups) ucs hwts hucs
        exact ⟨u2, c2,
          by simp [handleInherited, HandleProtocolOrComposition, heq], hc⟩
      | comp ms =>
        have hucs' : ∀ m ∈ ms :: ucs, tysWellFormed m = true := by
          intro m hm
          rcases List.mem_cons.mp hm with h | h
          · subst h
            simpa [tyWellFormed] using hwt
          · exact hucs m h
        obtain ⟨u2, c2, heq, hc⟩ := ih ups (ms :: ucs) hwts hucs'
        exact ⟨u2, c2,
          by simp [handleInherited, HandleProtocolOrComposition, heq], hc⟩
      | other => simp [tyWellFormed] at hwt

/-- Fuel equal to the pending measure suffices: each iteration decreases the
measure by exactly one, so the worklist empties and the loop returns its
result. -/
theorem expandLoop_terminates (env : String → List (Option Ty))
    (r : String → Nat) (hr : RankedEnv env r) (hwf : WfEnv env) :
    ∀ (n : Nat) (ups : List String) (ucs : List (List Ty)) (acc : List String),
      (∀ ms ∈ ucs, tysWellFormed ms = true) →
      pendingMeasure (protoWeight env r) ups ucs ≤ n →
      ∃ l, expandLoop env n ups ucs acc = some (Except.ok l) := by
  intro n
  induction n with
  | zero =>
    intro ups ucs acc hw hm
    rcases ucs with _ | ⟨ms, ucs'⟩
    · rcases ups with _ | ⟨P, ups'⟩
      · exact ⟨acc, rfl⟩
      · rw [pendingMeasure_cons_proto] at hm
        have := protoWeight_pos env r P
        omega
    · rw [pendingMeasure_cons_comp] at hm
      omega
  | succ n ih =>
    intro ups ucs acc hw hm
    rcases ucs with _ | ⟨ms, ucs'⟩
    · rcases ups with _ | ⟨P, ups'⟩
      · exact ⟨acc, rfl⟩
      · obtain ⟨u2, c2, heq, hc⟩ := handleInherited_wf (env P) ups' []
          (hwf P) (by simp)
        have hme := handleInherited_measure (protoWeight env r) (env P)
          ups' [] u2 c2 heq
        rw [pendingMeasure_cons_proto] at hm
        have hPw := protoWeight_eq env r hr P
        obtain ⟨l, hl⟩ := ih u2 c2 (acc ++ [P]) hc (by omega)
        exact ⟨l, by simp [expandLoop, heq, hl]⟩
    · obtain ⟨u2, c2, heq, hc⟩ := handleTypes_wf ms ups ucs'
        (hw ms (List.mem_cons_self _ _))
        (fun m h => hw m (List.mem_cons_of_mem _ h))
      have hme := handleTypes_measure (protoWeight env r) ms ups ucs' u2 c2 heq
      rw [pendingMeasure_cons_comp] at hm
      obtain ⟨l, hl⟩ := ih u2 c2 acc hc (by omega)
      exact ⟨l, by simp [expandLoop, heq, hl]⟩

/-- C7: on a finite, acyclic interface-inheritance/composition graph —
acyclicity witnessed by a rank that strictly decreases along stated
inheritance — with every stated type an interface reference or a
composition, the expansion worklist terminates: some finite fuel empties
both pending lists and the loop returns the expanded protocol list. -/
theorem conformance_expansion_terminates (env : String → List (Option Ty))
    (r : String → Nat) (hr : RankedEnv env r) (hwf : WfEnv env)
    (inherited : List (Option Ty))
    (hinh : tysWellFormed (inherited.filterMap id) = true) :
    ∃ fuel l, expandConformances env fuel inherited = some (Except.ok l) := by
  obtain ⟨ups, ucs, heq, hc⟩ := handleInherited_wf inherited [] [] hinh (by simp)
  obtain ⟨l, hl⟩ := expandLoop_terminates env r hr hwf
    (pendingMeasure (protoWeight env r) ups ucs) ups ucs [] hc le_rfl
  exact ⟨pendingMeasure (protoWeight env r) ups ucs, l,
    by simp [expandConformances, heq, hl]⟩

/-- A small concrete inheritance environment: protocol `B` states `C`,
nothing else states anything. -/
def c7env : String → List (Option Ty) := fun P =>
  if P = "B" then [some (Ty.protoRef "C")] else []

/-- Witness for C7 at the concrete acyclic environment of the `A & B`,
`B : C` scenario. -/
theorem conformance_expansion_terminates_witness :
    ∃ fuel l, expandConformances c7env fuel
        [some (Ty.comp [Ty.protoRef "A", Ty.protoRef "B"])] =
      some (Except.ok l) :=
  conformance_expansion_terminates c7env (fun P => if P = "B" then 1 else 0)
    (by
      intro P Q hQ
      by_cases hP : P = "B"
      · subst hP
        simp [c7env, tysProtos, tyProtos] at hQ
        subst hQ
        simp
      · simp [c7env, hP, tysProtos] at hQ)
    (by
      intro P
      by_cases hP : P = "B" <;>
        simp [c7env, hP, tysWellFormed, tyWellFormed])
    [some (Ty.comp [Ty.protoRef "A", Ty.protoRef "B"])]
    (by simp [tysWellFormed, tyWellFormed])

end SymbolGraphGen
